import Mathlib

/-!
Verification of the mark-compact garbage collector in `src/mark-compact.cc`
against its natural-language specification.  The collector's data model and
operations are shallowly embedded below: addresses and machine words are
`Nat`, memory is a function from addresses to words, and the stateful
phases are explicit state-passing functions.  Definitions are translated
from the source; the few constructs whose source lives outside this
repository snapshot (the `MapWord` bit encoding, `MarkingStack::Push`,
`Heap::TargetSpace`) are modelled from the specification's words and say
so in their doc comments.
-/

namespace MarkCompact

/-! ## Prepare: the compaction decision (`MarkCompactCollector::Prepare`) -/

/-- Sizes the `Prepare` phase reads from the old and code spaces:
`Waste()`, `AvailableFree()` and `Size()` of each. -/
structure SpaceSizes where
  oldWaste : Nat
  oldAvailableFree : Nat
  oldSize : Nat
  codeWaste : Nat
  codeAvailableFree : Nat
  codeSize : Nat

/-- `old_gen_recoverable` from `Prepare`: waste plus available free-list
space of the old and code spaces. -/
def oldGenRecoverable (h : SpaceSizes) : Nat :=
  h.oldWaste + h.oldAvailableFree + h.codeWaste + h.codeAvailableFree

/-- `old_gen_used` from `Prepare`: recoverable space plus the sizes of the
old and code spaces. -/
def oldGenUsed (h : SpaceSizes) : Nat :=
  oldGenRecoverable h + h.oldSize + h.codeSize

/-- `kFragmentationLimit` from `Prepare` (percent). -/
def kFragmentationLimit : Nat := 50

/-- The compaction decision made by `MarkCompactCollector::Prepare`:
start from `FLAG_always_compact`; if not yet compacting, compute the
old-generation fragmentation percentage and compact when it exceeds the
limit; finally `FLAG_never_compact` overrides to non-compacting.
(C++ `int` division; when `old_gen_used` is zero the C++ code would divide
by zero, the `Nat` embedding yields 0 and hence no compaction.) -/
def Prepare (always_compact never_compact : Bool) (h : SpaceSizes) : Bool :=
  let compacting := always_compact
  let compacting :=
    if !compacting then
      let old_gen_fragmentation := (oldGenRecoverable h * 100) / oldGenUsed h
      if old_gen_fragmentation > kFragmentationLimit then true else compacting
    else compacting
  if never_compact then false else compacting

/-! ## CollectGarbage: the phase sequence -/

/-- The phases run by `MarkCompactCollector::CollectGarbage`. -/
inductive Phase where
  | prepare
  | markLiveObjects
  | sweepLargeObjectSpace
  | encodeForwardingAddresses
  | updatePointers
  | relocateObjects
  | rebuildRSets
  | sweepSpaces
  | finish
deriving DecidableEq, Repr

/-- The sequence of phases executed by `CollectGarbage(tracer)`:
`Prepare`, `MarkLiveObjects`, `SweepLargeObjectSpace`, then the four
compacting phases when `compacting_collection_` is true and `SweepSpaces`
otherwise, and finally `Finish`. -/
def CollectGarbage (always_compact never_compact : Bool) (h : SpaceSizes) :
    List Phase :=
  let compacting_collection := Prepare always_compact never_compact h
  [Phase.prepare, Phase.markLiveObjects, Phase.sweepLargeObjectSpace]
    ++ (if compacting_collection then
          [Phase.encodeForwardingAddresses, Phase.updatePointers,
           Phase.relocateObjects, Phase.rebuildRSets]
        else
          [Phase.sweepSpaces])
    ++ [Phase.finish]

/-! ## Pages and forwarding addresses in paged spaces -/

/-- The page header fields `GetForwardingAddressInOldSpace` reads: the page
start address (`Page::FromAddress` rounds down to it), `mc_first_forwarded`
(forwarding address of the first live object on the page) and
`mc_relocation_top` (the page's relocation high-water mark). -/
structure Page where
  pstart : Nat
  mc_first_forwarded : Nat
  mc_relocation_top : Nat

/-- `Page::Offset(addr)`: offset of an address from the page start. -/
def Page.Offset (p : Page) (a : Nat) : Nat := a - p.pstart

/-- `Page::OffsetToAddress(offset)`. -/
def Page.OffsetToAddress (p : Page) (o : Nat) : Nat := p.pstart + o

/-- `Page::kObjectStartOffset`: the offset of the object area in a page
(past the page header and remembered-set bitmap).  The exact value is not
fixed by the source in this repository; no theorem below depends on it,
only on its role as the object-area start. -/
def Page.kObjectStartOffset : Nat := 256

/-- Modelled from the spec: the Forwarded map-word encoding packs, low bits
to high, the 10-bit page index of the map, the 11-bit page offset of the
map, and the 11-bit forwarding offset (the comment atop phase 2 in
`mark-compact.cc` gives this layout; the accessors themselves live in a
header outside this repository snapshot). -/
def MapWord.EncodeAddress (pageIndex pageOffset fwdOffset : Nat) : Nat :=
  pageIndex % 2 ^ 10 + (pageOffset % 2 ^ 11) * 2 ^ 10 +
    (fwdOffset % 2 ^ 11) * 2 ^ 21

/-- Modelled from the spec: decode the forwarding offset (the high 11 bits)
from a Forwarded map word. -/
def MapWord.DecodeOffset (w : Nat) : Nat := w / 2 ^ 21 % 2 ^ 11

/-- The page structure and per-object map words of the paged old/code/map
spaces, as consulted by `GetForwardingAddressInOldSpace`:
`Page::FromAddress`, `Page::next_page()` and `obj->map_word()`. -/
structure PagedHeap where
  pageAt : Nat → Page
  nextPage : Page → Page
  mapWordAt : Nat → Nat

/-- `MarkCompactCollector::GetForwardingAddressInOldSpace`: decode the
forwarding offset from the object's map word, fetch `mc_first_forwarded`
from the object's page, and either stay in the page holding the first
forwarded object or wrap into the next page. -/
def GetForwardingAddressInOldSpace (H : PagedHeap) (objAddr : Nat) : Nat :=
  let encoding := H.mapWordAt objAddr
  let offset := MapWord.DecodeOffset encoding
  let p := H.pageAt objAddr
  let first_forwarded := p.mc_first_forwarded
  let forwarded_page := H.pageAt first_forwarded
  let forwarded_offset := forwarded_page.Offset first_forwarded
  let mc_top := forwarded_page.mc_relocation_top
  let mc_top_offset := forwarded_page.Offset mc_top
  if forwarded_offset + offset < mc_top_offset then
    first_forwarded + offset
  else
    let next_page := H.nextPage forwarded_page
    next_page.OffsetToAddress
      (offset - (mc_top_offset - forwarded_offset) + Page.kObjectStartOffset)

/-! ## Pointer values and UpdatePointer -/

/-- A slot value: a tagged small integer or a heap-object pointer (the
object's address).  `Object::IsHeapObject` discriminates the two. -/
inductive Value where
  | smi (v : Int)
  | heapObj (addr : Nat)
deriving DecidableEq, Repr

/-- The space-membership tests `UpdatePointer` performs
(`Heap::new_space()->Contains`, `Heap::lo_space()->Contains`) and the
new-space forwarding data (`FromSpaceLow()`, `ToSpaceOffsetForAddress`,
`Memory::Address_at`). -/
structure UpdateEnv where
  inNewSpace : Nat → Bool
  inLoSpace : Nat → Bool
  fromSpaceLow : Nat
  toSpaceOffsetForAddress : Nat → Nat
  addressAt : Nat → Nat

/-- `MarkCompactCollector::UpdatePointer`: a non-heap-object slot is left
untouched; a new-space pointer is resolved through the `from`-space shadow
slot; a large-object pointer does not move; any other pointer is resolved
with `GetForwardingAddressInOldSpace`. -/
def UpdatePointer (E : UpdateEnv) (H : PagedHeap) (slot : Value) : Value :=
  match slot with
  | Value.smi v => Value.smi v
  | Value.heapObj old_addr =>
    if E.inNewSpace old_addr then
      Value.heapObj
        (E.addressAt (E.fromSpaceLow + E.toSpaceOffsetForAddress old_addr))
    else if E.inLoSpace old_addr then
      Value.heapObj old_addr
    else
      Value.heapObj (GetForwardingAddressInOldSpace H old_addr)

/-! ## Free-region encoding and the live-object walk -/

/-- `kIntSize` / `kPointerSize` on the 32-bit target of this source. -/
def kIntSize : Nat := 4

/-- `kPointerSize`: one machine word, 4 bytes. -/
def kPointerSize : Nat := 4

/-- `kSingleFreeEncoding`: distinguished word marking a one-word free
region. -/
def kSingleFreeEncoding : Nat := 0

/-- `kMultiFreeEncoding`: distinguished word marking the first word of a
multi-word free region. -/
def kMultiFreeEncoding : Nat := 1

/-- Word-granularity memory: a map from (4-byte aligned) byte addresses to
the 32-bit word stored there.  `Memory::uint32_at` / `Memory::int_at`. -/
def Mem : Type := Nat → Nat

/-- Write one word of memory. -/
def Mem.write (m : Mem) (a v : Nat) : Mem :=
  fun x => if x = a then v else m x

/-- `EncodeFreeRegion(free_start, free_size)`: a one-word region gets the
single-free constant in its only word; a larger region gets the multi-free
constant in its first word and the byte size in its second word.  (The
debug-only zapping of the region body is omitted.) -/
def EncodeFreeRegion (free_start free_size : Nat) (m : Mem) : Mem :=
  if free_size = kIntSize then
    m.write free_start kSingleFreeEncoding
  else
    (m.write free_start kMultiFreeEncoding).write (free_start + kIntSize)
      free_size

/-- One step of the walk in
`MarkCompactCollector::IterateLiveObjectsInRange`: the address the walk
advances to from `current`, given the in-place encodings and the live
object size callback. -/
def iterateLiveStep (m : Mem) (size_func : Nat → Nat) (current : Nat) : Nat :=
  let encoded_map := m current
  if encoded_map = kSingleFreeEncoding then
    current + kPointerSize
  else if encoded_map = kMultiFreeEncoding then
    current + m (current + kIntSize)
  else
    current + size_func current

/-- `MarkCompactCollector::IterateLiveObjectsInRange(start, end, size_func)`
counting live objects; `fuel` bounds the number of steps (the C++ loop
terminates because every step advances `current`). -/
def IterateLiveObjectsInRange (m : Mem) (size_func : Nat → Nat) :
    Nat → Nat → Nat → Nat
  | 0, _, _ => 0
  | fuel + 1, current, stop =>
    if current < stop then
      let encoded_map := m current
      if encoded_map = kSingleFreeEncoding then
        IterateLiveObjectsInRange m size_func fuel (current + kPointerSize) stop
      else if encoded_map = kMultiFreeEncoding then
        IterateLiveObjectsInRange m size_func fuel
          (current + m (current + kIntSize)) stop
      else
        1 + IterateLiveObjectsInRange m size_func fuel
          (current + size_func current) stop
    else 0

/-! ## Space-ordering traces for encoding and relocation -/

/-- The four spaces touched by forwarding encoding and relocation. -/
inductive SpaceId where
  | newSpace
  | oldSpace
  | codeSpace
  | mapSpace
deriving DecidableEq, Repr

/-- The live objects of each compactable space, in the order the per-space
iterators deliver them. -/
structure HeapObjLists (α : Type) where
  oldObjs : List α
  codeObjs : List α
  newObjs : List α
  mapObjs : List α

/-- The per-object processing order of
`MarkCompactCollector::EncodeForwardingAddresses`: old space, then code
space, then new space, then map space last. -/
def encodeForwardingTrace (h : HeapObjLists α) : List (SpaceId × α) :=
  h.oldObjs.map (fun o => (SpaceId.oldSpace, o))
    ++ h.codeObjs.map (fun o => (SpaceId.codeSpace, o))
    ++ h.newObjs.map (fun o => (SpaceId.newSpace, o))
    ++ h.mapObjs.map (fun o => (SpaceId.mapSpace, o))

/-- The per-object processing order of
`MarkCompactCollector::RelocateObjects`: map space first, then old, code
and new spaces. -/
def relocateTrace (h : HeapObjLists α) : List (SpaceId × α) :=
  h.mapObjs.map (fun o => (SpaceId.mapSpace, o))
    ++ h.oldObjs.map (fun o => (SpaceId.oldSpace, o))
    ++ h.codeObjs.map (fun o => (SpaceId.codeSpace, o))
    ++ h.newObjs.map (fun o => (SpaceId.newSpace, o))

/-- Position of a space in the encoding order (map space strictly last). -/
def encodeRank : SpaceId → Nat
  | SpaceId.oldSpace => 0
  | SpaceId.codeSpace => 1
  | SpaceId.newSpace => 2
  | SpaceId.mapSpace => 3

/-- Position of a space in the relocation order (map space strictly
first). -/
def relocateRank : SpaceId → Nat
  | SpaceId.mapSpace => 0
  | SpaceId.oldSpace => 1
  | SpaceId.codeSpace => 2
  | SpaceId.newSpace => 3

/-! ## Promotion of new-space objects (`MCAllocateFromNewSpace`) -/

/-- Allocation spaces relevant to promotion. -/
inductive AllocationSpace where
  | OLD_SPACE
  | CODE_SPACE
deriving DecidableEq, Repr

/-- Modelled from the spec and the comment atop `MCAllocateFromNewSpace`:
`Heap::TargetSpace(obj)` sends heap numbers and sequential strings to the
code space and all other objects to the old space. -/
def TargetSpace (isHeapNumber isSeqString : Bool) : AllocationSpace :=
  if isHeapNumber || isSeqString then AllocationSpace.CODE_SPACE
  else AllocationSpace.OLD_SPACE

/-- The three `MCAllocateRaw` allocators `MCAllocateFromNewSpace` can call;
`none` models a `Failure` result. -/
structure Allocators where
  oldAlloc : Nat → Option Nat
  codeAlloc : Nat → Option Nat
  newAlloc : Nat → Option Nat

/-- The target-space allocation request of `MCAllocateFromNewSpace`: the
old space's `MCAllocateRaw` when `TargetSpace` says `OLD_SPACE`, the code
space's when it says `CODE_SPACE`. -/
def targetAllocate (A : Allocators) (isHeapNumber isSeqString : Bool)
    (object_size : Nat) : Option Nat :=
  match TargetSpace isHeapNumber isSeqString with
  | AllocationSpace.OLD_SPACE => A.oldAlloc object_size
  | AllocationSpace.CODE_SPACE => A.codeAlloc object_size

/-- `MCAllocateFromNewSpace(object, object_size)`: allocate in the object's
target space, and if that fails (`forwarded->IsFailure()`) allocate in the
new space's inactive semispace instead. -/
def MCAllocateFromNewSpace (A : Allocators) (isHeapNumber isSeqString : Bool)
    (object_size : Nat) : Option Nat :=
  match targetAllocate A isHeapNumber isSeqString object_size with
  | some a => some a
  | none => A.newAlloc object_size

/-! ## The ConsString short-circuit in `MarkingVisitor::MarkObjectByPointer` -/

/-- The per-object data `MarkObjectByPointer` consults (through the map
word with the mark bit cleared): whether the instance type is a string
(`type < FIRST_NONSTRING_TYPE`), whether its representation tag is
`kConsStringTag`, the two components of a cons string, and new-space
membership. -/
structure ObjData where
  isStringType : Bool
  reprIsCons : Bool
  first : Value
  second : Value
  inNewSpace : Bool

/-- A heap for the marking visitor: object data by address, plus the address
of the canonical empty string `Heap::empty_string()`. -/
structure MarkHeap where
  objAt : Nat → ObjData
  emptyString : Nat

/-- `Heap::InNewSpace` on a slot value (false for smis). -/
def MarkHeap.inNewSpaceV (h : MarkHeap) : Value → Bool
  | Value.smi _ => false
  | Value.heapObj a => (h.objAt a).inNewSpace

/-- The object `MarkCompactCollector::MarkObject` would mark for a slot
value (`none` for a smi, which `MarkObject` ignores). -/
def markTargetOf : Value → Option Nat
  | Value.smi _ => none
  | Value.heapObj a => some a

/-- `MarkingVisitor::MarkObjectByPointer(p)`: returns the new slot value
and the object passed on to `MarkCompactCollector::MarkObject`.  A
ConsString whose second component is the canonical empty string is
short-circuited to its first component when the new-space guard holds. -/
def MarkObjectByPointer (h : MarkHeap) (slot : Value) : Value × Option Nat :=
  match slot with
  | Value.smi v => (Value.smi v, none)
  | Value.heapObj a =>
    let d := h.objAt a
    if d.isStringType && d.reprIsCons
        && decide (d.second = Value.heapObj h.emptyString) then
      if d.inNewSpace || !(h.inNewSpaceV d.first) then
        (d.first, markTargetOf d.first)
      else
        (Value.heapObj a, some a)
    else
      (Value.heapObj a, some a)

/-! ## The marking phase: bounded marking stack with overflow rescan

The heap is abstracted as a finite graph: object `o`'s `children` list
stands for the pointers `IterateBody` visits in `o` (its map pointer and
its body slots), and `space o` says which space's iterator enumerates `o`
during the overflow rescan.  The state carries the per-object mark and
overflow bits (the low bits of the map word), the marking stack, its
latched overflow flag, and the tracer's `marked_count`. -/

/-- The five spaces scanned by the overflow-rescan loop of
`ProcessMarkingStack`, in no particular order here. -/
inductive HeapSpace where
  | newS
  | oldS
  | codeS
  | mapS
  | loS
deriving DecidableEq, Repr

/-- The object graph the marking phase traverses. -/
structure MarkGraph (n : Nat) where
  children : Fin n → List (Fin n)
  space : Fin n → HeapSpace

/-- Marking-phase state: mark bits, overflow bits, the marking stack, the
stack's latched overflow flag, and the tracer's count of marked objects. -/
structure MarkState (n : Nat) where
  marked : Fin n → Bool
  overflowBit : Fin n → Bool
  stack : List (Fin n)
  stackOverflowed : Bool
  markedCount : Nat

/-- The state at the start of `MarkLiveObjects`: nothing marked, empty
stack, overflow flag clear (`ASSERT(!marking_stack.overflowed())`). -/
def initState (n : Nat) : MarkState n :=
  { marked := fun _ => false
    overflowBit := fun _ => false
    stack := []
    stackOverflowed := false
    markedCount := 0 }

/-- A push operation on the marking stack. -/
def PushFn (n : Nat) : Type := Fin n → MarkState n → MarkState n

/-- Modelled from the spec: `MarkingStack::Push` (its source lives in a
header outside this repository snapshot) — if there is room the object
goes on the stack; on a push past capacity the `overflowed` flag latches
and the push is silently dropped. -/
def markingStackPush (cap : Nat) : PushFn n := fun o s =>
  if s.stack.length < cap then { s with stack := o :: s.stack }
  else { s with stackOverflowed := true }

/-- The push behaviour the amended claim C3 requires: on a push past
capacity the `overflowed` flag latches and the dropped object is left in
the marked-and-overflowed state (its overflow bit set) so that the rescan
can find it. -/
def markingStackPushMarkOverflow (cap : Nat) : PushFn n := fun o s =>
  if s.stack.length < cap then { s with stack := o :: s.stack }
  else
    { s with
      stackOverflowed := true
      overflowBit := fun p => if p = o then true else s.overflowBit p }

/-- `obj->SetMark()` together with
`tracer_->increment_marked_count()`. -/
def setMark (o : Fin n) (s : MarkState n) : MarkState n :=
  { s with
    marked := fun p => if p = o then true else s.marked p
    markedCount := s.markedCount + 1 }

/-- `obj->SetOverflow()`. -/
def setOverflow (o : Fin n) (s : MarkState n) : MarkState n :=
  { s with overflowBit := fun p => if p = o then true else s.overflowBit p }

/-- `obj->ClearOverflow()`. -/
def clearOverflowBit (o : Fin n) (s : MarkState n) : MarkState n :=
  { s with overflowBit := fun p => if p = o then false else s.overflowBit p }

/-- `MarkCompactCollector::MarkUnmarkedObject(obj)`: set the mark bit and
bump the marked count; while the stack has not overflowed, push the object,
otherwise set its overflow bit and wait for the rescan.  (The
`JSGlobalObject` counter and map code-cache flushing are side effects
irrelevant to marking and are omitted.) -/
def MarkUnmarkedObject (push : PushFn n) (o : Fin n) (s : MarkState n) :
    MarkState n :=
  let s := setMark o s
  if !s.stackOverflowed then push o s else setOverflow o s

/-- `MarkCompactCollector::MarkObject(obj)` (header inline): mark the
object if it is not yet marked. -/
def MarkObject (push : PushFn n) (o : Fin n) (s : MarkState n) : MarkState n :=
  if s.marked o then s else MarkUnmarkedObject push o s

/-- Mark every object in a list, left to right — the visitor passing each
pointer of a root set or of an object body to `MarkObject`. -/
def markObjectList (push : PushFn n) (l : List (Fin n)) (s : MarkState n) :
    MarkState n :=
  l.foldl (fun st o => MarkObject push o st) s

/-- Process the body of a popped object: `MarkObject` on its map and on
every pointer `IterateBody` visits, all abstracted as `children`. -/
def markChildren (push : PushFn n) (g : MarkGraph n) (o : Fin n)
    (s : MarkState n) : MarkState n :=
  markObjectList push (g.children o) s

/-- The inner loop of `ProcessMarkingStack`: pop objects and visit their
bodies until the stack is empty.  `fuel` bounds the number of pops;
`none` means the fuel ran out. -/
def drainMarkingStack (push : PushFn n) (g : MarkGraph n) :
    Nat → MarkState n → Option (MarkState n)
  | 0, s =>
    match s.stack with
    | [] => some s
    | _ :: _ => none
  | fuel + 1, s =>
    match s.stack with
    | [] => some s
    | o :: rest =>
      drainMarkingStack push g fuel (markChildren push g o { s with stack := rest })

/-- `ScanOverflowedObjects` over one space's object iterator, with
`VisitOverflowedObject` inlined: skip objects whose overflow bit is clear;
stop early if the stack has overflowed again; otherwise clear the overflow
bit and push. -/
def scanOverflowedObjects (push : PushFn n) :
    List (Fin n) → MarkState n → MarkState n
  | [], s => s
  | o :: rest, s =>
    if s.overflowBit o then
      if s.stackOverflowed then s
      else scanOverflowedObjects push rest (push o (clearOverflowBit o s))
    else scanOverflowedObjects push rest s

/-- The objects a space's iterator enumerates, in `Fin`-index (address)
order. -/
def spaceList (g : MarkGraph n) (sp : HeapSpace) : List (Fin n) :=
  (List.finRange n).filter (fun o => g.space o = sp)

/-- `MarkCompactCollector::ProcessMarkingStack`: drain the stack; if the
overflow flag is clear, return; otherwise clear it and rescan the spaces in
the order new, old, code, map, large-object for overflowed objects,
restarting the drain as soon as the stack overflows again.  `fuel` bounds
the number of loop iterations. -/
def processMarkingStack (push : PushFn n) (g : MarkGraph n) :
    Nat → MarkState n → Option (MarkState n)
  | 0, _ => none
  | fuel + 1, s =>
    match drainMarkingStack push g fuel s with
    | none => none
    | some s1 =>
      if !s1.stackOverflowed then some s1
      else
        let s2 := { s1 with stackOverflowed := false }
        let s3 := scanOverflowedObjects push (spaceList g HeapSpace.newS) s2
        if s3.stackOverflowed then processMarkingStack push g fuel s3 else
        let s4 := scanOverflowedObjects push (spaceList g HeapSpace.oldS) s3
        if s4.stackOverflowed then processMarkingStack push g fuel s4 else
        let s5 := scanOverflowedObjects push (spaceList g HeapSpace.codeS) s4
        if s5.stackOverflowed then processMarkingStack push g fuel s5 else
        let s6 := scanOverflowedObjects push (spaceList g HeapSpace.mapS) s5
        if s6.stackOverflowed then processMarkingStack push g fuel s6 else
        let s7 := scanOverflowedObjects push (spaceList g HeapSpace.loS) s6
        processMarkingStack push g fuel s7

/-- The root-marking plus stack-draining core of
`MarkCompactCollector::MarkLiveObjects`: mark the strong roots through the
marking visitor, then run `ProcessMarkingStack`.  (Object groups, weak
handles and the symbol-table prune re-enter through the same two
operations and are outside claim C3's scope.) -/
def MarkLiveObjectsRun (push : PushFn n) (g : MarkGraph n)
    (roots : List (Fin n)) (fuel : Nat) : Option (MarkState n) :=
  processMarkingStack push g fuel (markObjectList push roots (initState n))

/-- Reachability from the roots through the children relation. -/
inductive Reachable (g : MarkGraph n) (roots : List (Fin n)) : Fin n → Prop
  | root {o : Fin n} : o ∈ roots → Reachable g roots o
  | child {o c : Fin n} : Reachable g roots o → c ∈ g.children o →
      Reachable g roots c

/-- An object is pending when the collector still owes it a body visit: it
is on the marking stack or its overflow bit is set (the two gray states of
the tri-color invariant). -/
def pending (s : MarkState n) (o : Fin n) : Prop :=
  o ∈ s.stack ∨ s.overflowBit o = true

/-- The marking invariant: a marked object is pending or all of its
children are already marked. -/
def ColorInv (g : MarkGraph n) (s : MarkState n) : Prop :=
  ∀ o, s.marked o = true →
    pending s o ∨ ∀ c ∈ g.children o, s.marked c = true

/-- Relations a single marking-phase operation guarantees between the
state before and after: marks and pending-ness are preserved, the overflow
flag only latches, overflow bits appear only while the flag is set, and
newly marked objects are pending. -/
structure StateTrans (s t : MarkState n) : Prop where
  marked_mono : ∀ p, s.marked p = true → t.marked p = true
  pending_mono : ∀ p, pending s p → pending t p
  flag_mono : s.stackOverflowed = true → t.stackOverflowed = true
  ovbit_new : ∀ p, t.overflowBit p = true →
    s.overflowBit p = true ∨ t.stackOverflowed = true
  marked_new : ∀ p, t.marked p = true → s.marked p = true ∨ pending t p

/-- Number of objects currently marked. -/
def markedCard (s : MarkState n) : Nat :=
  (Finset.univ.filter (fun o => s.marked o = true)).card

/-- The tracer-count invariant of claim C9: `marked_count` equals the
number of objects whose mark bit is set. -/
def CountInv (s : MarkState n) : Prop := s.markedCount = markedCard s

/-- The mark-clearing half of `SweepSpace` /
`EncodeForwardingAddressesInRange`: walk the objects of a space in address
order; each marked object has its mark cleared and the tracer's marked
count decremented (`object->ClearMark();
MarkCompactCollector::tracer()->decrement_marked_count();`). -/
def sweepClearMarks (l : List (Fin n)) (s : MarkState n) : MarkState n :=
  l.foldl
    (fun st o =>
      if st.marked o then
        { st with
          marked := fun p => if p = o then false else st.marked p
          markedCount := st.markedCount - 1 }
      else st)
    s

/-! ## Concrete instances used by witnesses and the counterexample -/

/-- A five-object heap for exercising marking-stack overflow: the root
object `0` points at `1` and `2`, object `1` points at `3`, object `2`
points at `4`.  All objects live in the old space. -/
def gOverflow : MarkGraph 5 where
  children := fun o =>
    if o = 0 then [1, 2]
    else if o = 1 then [3]
    else if o = 2 then [4]
    else []
  space := fun _ => HeapSpace.oldS

/-- The final state of the marking run on `gOverflow` from root `0` with a
capacity-1 marking stack under the spec's silently-dropping push. -/
def ceState : MarkState 5 :=
  (MarkLiveObjectsRun (markingStackPush 1) gOverflow [(0 : Fin 5)] 30).getD
    (initState 5)

/-- The final state of the marking run on `gOverflow` from root `0` with a
capacity-1 marking stack under the push that marks the dropped object
overflowed. -/
def wOverflowState : MarkState 5 :=
  (MarkLiveObjectsRun (markingStackPushMarkOverflow 1) gOverflow
      [(0 : Fin 5)] 30).getD (initState 5)

/-! ## Helper lemmas -/

theorem pairwise_of_total {α : Type _} {R : α → α → Prop} (hR : ∀ a b, R a b) :
    ∀ l : List α, l.Pairwise R
  | [] => List.Pairwise.nil
  | a :: l => List.Pairwise.cons (fun b _ => hR a b) (pairwise_of_total hR l)

theorem pairwise_rank_tagged {α : Type _} (r : SpaceId → Nat) (sp : SpaceId)
    (l : List α) :
    (l.map (fun o => (sp, o))).Pairwise (fun a b => r a.1 ≤ r b.1) := by
  induction l with
  | nil => exact List.Pairwise.nil
  | cons a l ih =>
    refine List.Pairwise.cons ?_ ih
    intro b hb
    simp only [List.mem_map] at hb
    obtain ⟨x, _, rfl⟩ := hb
    exact le_refl _

theorem mem_tagged_fst {α : Type _} {sp : SpaceId} {l : List α}
    {a : SpaceId × α} (h : a ∈ l.map (fun o => (sp, o))) : a.1 = sp := by
  simp only [List.mem_map] at h
  obtain ⟨x, _, rfl⟩ := h
  rfl

/-! ## Claim theorems -/

/-- Claim C1: `CollectGarbage(tracer)` always runs the phases in the fixed
order Prepare, MarkLiveObjects, SweepLargeObjectSpace, then — exactly when
the compacting decision made in Prepare is true — EncodeForwardingAddresses,
UpdatePointers, RelocateObjects, RebuildRSets, and otherwise SweepSpaces,
and finally Finish; no phase is skipped, repeated, or reordered. -/
theorem CollectGarbage_phase_order (ac nc : Bool) (h : SpaceSizes) :
    CollectGarbage ac nc h =
      (if Prepare ac nc h then
        [Phase.prepare, Phase.markLiveObjects, Phase.sweepLargeObjectSpace,
         Phase.encodeForwardingAddresses, Phase.updatePointers,
         Phase.relocateObjects, Phase.rebuildRSets, Phase.finish]
      else
        [Phase.prepare, Phase.markLiveObjects, Phase.sweepLargeObjectSpace,
         Phase.sweepSpaces, Phase.finish]) ∧
    (CollectGarbage ac nc h).Nodup := by
  constructor
  · unfold CollectGarbage
    by_cases hc : Prepare ac nc h <;> simp [hc]
  · unfold CollectGarbage
    by_cases hc : Prepare ac nc h <;> simp only [hc, if_true, if_false] <;> decide

/-- Claim C6: `Prepare` decides to compact if and only if `never_compact`
is unset and either `always_compact` is set or the old-generation
fragmentation percentage `(recoverable * 100) / used` exceeds 50;
`never_compact` forces a non-compacting collection even when
`always_compact` or the heuristic would compact. -/
theorem Prepare_compacting_decision (ac nc : Bool) (h : SpaceSizes) :
    Prepare ac nc h =
      (!nc && (ac ||
        decide (kFragmentationLimit <
          oldGenRecoverable h * 100 / oldGenUsed h))) := by
  cases ac <;> cases nc <;>
    by_cases hf : kFragmentationLimit < oldGenRecoverable h * 100 / oldGenUsed h <;>
      simp [Prepare, hf]

/-- Claim C2: `GetForwardingAddressInOldSpace` decodes the offset from the
object's Forwarded map word, fetches `mc_first_forwarded` from the
object's page, and returns `first_forwarded + offset` when that position
stays below the `mc_relocation_top` of the page containing
`first_forwarded`; otherwise it wraps into the next page at
page-object-area-start plus the remainder, and the wrapped result is at or
above the next page's object-area start. -/
theorem GetForwardingAddressInOldSpace_cases (H : PagedHeap) (objAddr : Nat)
    (hlo : (H.pageAt (H.pageAt objAddr).mc_first_forwarded).pstart ≤
      (H.pageAt objAddr).mc_first_forwarded)
    (hhi : (H.pageAt objAddr).mc_first_forwarded ≤
      (H.pageAt (H.pageAt objAddr).mc_first_forwarded).mc_relocation_top) :
    ((H.pageAt objAddr).mc_first_forwarded +
        MapWord.DecodeOffset (H.mapWordAt objAddr) <
        (H.pageAt (H.pageAt objAddr).mc_first_forwarded).mc_relocation_top →
      GetForwardingAddressInOldSpace H objAddr =
        (H.pageAt objAddr).mc_first_forwarded +
          MapWord.DecodeOffset (H.mapWordAt objAddr)) ∧
    (¬ ((H.pageAt objAddr).mc_first_forwarded +
          MapWord.DecodeOffset (H.mapWordAt objAddr) <
          (H.pageAt (H.pageAt objAddr).mc_first_forwarded).mc_relocation_top) →
      GetForwardingAddressInOldSpace H objAddr =
        (H.nextPage (H.pageAt (H.pageAt objAddr).mc_first_forwarded)).pstart +
          Page.kObjectStartOffset +
          (MapWord.DecodeOffset (H.mapWordAt objAddr) -
            ((H.pageAt (H.pageAt objAddr).mc_first_forwarded).mc_relocation_top -
              (H.pageAt objAddr).mc_first_forwarded)) ∧
      (H.nextPage (H.pageAt (H.pageAt objAddr).mc_first_forwarded)).pstart +
          Page.kObjectStartOffset ≤
        GetForwardingAddressInOldSpace H objAddr) := by
  unfold GetForwardingAddressInOldSpace Page.Offset Page.OffsetToAddress
  dsimp only
  constructor
  · intro hc
    rw [if_pos (by omega)]
  · intro hc
    rw [if_neg (by omega)]
    omega

/-- Witness for C2: a concrete page layout exercising the wrap clause:
first forwarded address 40 on a page starting at 0 with relocation top 60,
forwarding offset 25; the result wraps into the next page (start 1000) at
its object-area start plus the 5 remaining bytes. -/
theorem GetForwardingAddressInOldSpace_cases_witness :
    (1000 + Page.kObjectStartOffset + 5 = 1261) ∧
    GetForwardingAddressInOldSpace
        { pageAt := fun a => if a < 100 then
            { pstart := 0, mc_first_forwarded := 40, mc_relocation_top := 60 }
          else
            { pstart := 1000, mc_first_forwarded := 0, mc_relocation_top := 0 }
          nextPage := fun _ =>
            { pstart := 1000, mc_first_forwarded := 0, mc_relocation_top := 0 }
          mapWordAt := fun _ => MapWord.EncodeAddress 3 7 25 } 10 = 1261 := by
  refine ⟨by decide, ?_⟩
  have h := (GetForwardingAddressInOldSpace_cases
    { pageAt := fun a => if a < 100 then
        { pstart := 0, mc_first_forwarded := 40, mc_relocation_top := 60 }
      else
        { pstart := 1000, mc_first_forwarded := 0, mc_relocation_top := 0 }
      nextPage := fun _ =>
        { pstart := 1000, mc_first_forwarded := 0, mc_relocation_top := 0 }
      mapWordAt := fun _ => MapWord.EncodeAddress 3 7 25 } 10
    (by decide) (by decide)).2 (by decide)
  rw [h.1]
  decide

/-- Claim C4: during forwarding-address encoding the spaces are processed
in the order old, code, new, map (map strictly last), and during
relocation every map-space object is relocated before any object of the
old, code, or new space. -/
theorem forwarding_and_relocation_space_order {α : Type _} (h : HeapObjLists α) :
    (encodeForwardingTrace h).Pairwise
      (fun a b => encodeRank a.1 ≤ encodeRank b.1) ∧
    (relocateTrace h).Pairwise
      (fun a b => relocateRank a.1 ≤ relocateRank b.1) := by
  constructor
  · unfold encodeForwardingTrace
    refine List.pairwise_append.mpr
      ⟨List.pairwise_append.mpr
        ⟨List.pairwise_append.mpr
          ⟨pairwise_rank_tagged _ _ _, pairwise_rank_tagged _ _ _, ?_⟩,
         pairwise_rank_tagged _ _ _, ?_⟩,
       pairwise_rank_tagged _ _ _, ?_⟩
    · intro a ha b hb
      rw [mem_tagged_fst ha, mem_tagged_fst hb]
      decide
    · intro a ha b hb
      rw [mem_tagged_fst hb]
      rcases List.mem_append.mp ha with ha | ha <;>
        rw [mem_tagged_fst ha] <;> decide
    · intro a ha b hb
      rw [mem_tagged_fst hb]
      rcases List.mem_append.mp ha with ha | ha
      · rcases List.mem_append.mp ha with ha | ha <;>
          rw [mem_tagged_fst ha] <;> decide
      · rw [mem_tagged_fst ha]
        decide
  · unfold relocateTrace
    refine List.pairwise_append.mpr
      ⟨List.pairwise_append.mpr
        ⟨List.pairwise_append.mpr
          ⟨pairwise_rank_tagged _ _ _, pairwise_rank_tagged _ _ _, ?_⟩,
         pairwise_rank_tagged _ _ _, ?_⟩,
       pairwise_rank_tagged _ _ _, ?_⟩
    · intro a ha b hb
      rw [mem_tagged_fst ha, mem_tagged_fst hb]
      decide
    · intro a ha b hb
      rw [mem_tagged_fst hb]
      rcases List.mem_append.mp ha with ha | ha <;>
        rw [mem_tagged_fst ha] <;> decide
    · intro a ha b hb
      rw [mem_tagged_fst hb]
      rcases List.mem_append.mp ha with ha | ha
      · rcases List.mem_append.mp ha with ha | ha <;>
          rw [mem_tagged_fst ha] <;> decide
      · rw [mem_tagged_fst ha]
        decide

/-- Claim C5: `EncodeFreeRegion` writes the constant 0 into the region's
only word when the size is one word, and otherwise writes the constant 1
into the first word and the size into the second; the walk of
`IterateLiveObjectsInRange` advances exactly one word over a single-free
region and exactly the region size over a multi-free region, counting no
live object there. -/
theorem EncodeFreeRegion_roundtrip (m : Mem) (size_func : Nat → Nat)
    (free_start free_size : Nat)
    (hsz : free_size = kIntSize ∨ 2 * kIntSize ≤ free_size) :
    (free_size = kIntSize →
      EncodeFreeRegion free_start free_size m free_start = kSingleFreeEncoding) ∧
    (free_size ≠ kIntSize →
      EncodeFreeRegion free_start free_size m free_start = kMultiFreeEncoding ∧
      EncodeFreeRegion free_start free_size m (free_start + kIntSize) =
        free_size) ∧
    iterateLiveStep (EncodeFreeRegion free_start free_size m) size_func
        free_start = free_start + free_size ∧
    (∀ stop fuel, free_start < stop →
      IterateLiveObjectsInRange (EncodeFreeRegion free_start free_size m)
          size_func (fuel + 1) free_start stop =
        IterateLiveObjectsInRange (EncodeFreeRegion free_start free_size m)
          size_func fuel (free_start + free_size) stop) := by
  rcases hsz with hsz | hsz
  · subst hsz
    refine ⟨fun _ => ?_, fun hne => absurd rfl hne, ?_, ?_⟩
    · simp [EncodeFreeRegion, Mem.write]
    · simp [EncodeFreeRegion, Mem.write, iterateLiveStep, kSingleFreeEncoding,
        kPointerSize, kIntSize]
    · intro stop fuel hlt
      rw [IterateLiveObjectsInRange]
      simp [EncodeFreeRegion, Mem.write, hlt, kSingleFreeEncoding, kPointerSize,
        kIntSize]
  · have hne : free_size ≠ kIntSize := by
      unfold kIntSize at *
      omega
    have h0 : EncodeFreeRegion free_start free_size m free_start =
        kMultiFreeEncoding := by
      unfold EncodeFreeRegion Mem.write
      rw [if_neg hne, if_neg (by unfold kIntSize; omega), if_pos rfl]
    have h1 : EncodeFreeRegion free_start free_size m (free_start + kIntSize) =
        free_size := by
      unfold EncodeFreeRegion Mem.write
      rw [if_neg hne, if_pos rfl]
    refine ⟨fun hc => absurd hc hne, fun _ => ⟨h0, h1⟩, ?_, ?_⟩
    · rw [iterateLiveStep, h0, h1]
      rw [if_neg (by decide), if_pos rfl]
    · intro stop fuel hlt
      rw [IterateLiveObjectsInRange, if_pos hlt, h0]
      rw [if_neg (by decide), if_pos rfl, h1]

/-- Witness for C5: encoding a 12-byte free region at address 100 over a
memory holding 99 everywhere makes the walk step from 100 to 112. -/
theorem EncodeFreeRegion_roundtrip_witness :
    (12 = kIntSize ∨ 2 * kIntSize ≤ 12) ∧
    iterateLiveStep (EncodeFreeRegion 100 12 (fun _ => 99)) (fun _ => 4) 100 =
      112 := by
  refine ⟨by decide, ?_⟩
  have h := (EncodeFreeRegion_roundtrip (fun _ => 99) (fun _ => 4) 100 12
    (by decide)).2.2.1
  rw [h]

/-- Claim C7: forwarding allocation for a live new-space object first
requests space in the object's target space (code space for heap numbers
and sequential strings, old space for all others, per `TargetSpace`); if
and only if that allocation fails, the object is instead allocated through
the new space's `MCAllocateRaw`. -/
theorem MCAllocateFromNewSpace_fallback (A : Allocators)
    (isHeapNumber isSeqString : Bool) (object_size : Nat) :
    (TargetSpace isHeapNumber isSeqString = AllocationSpace.CODE_SPACE ↔
      (isHeapNumber = true ∨ isSeqString = true)) ∧
    (∀ a, targetAllocate A isHeapNumber isSeqString object_size = some a →
      MCAllocateFromNewSpace A isHeapNumber isSeqString object_size = some a) ∧
    (targetAllocate A isHeapNumber isSeqString object_size = none →
      MCAllocateFromNewSpace A isHeapNumber isSeqString object_size =
        A.newAlloc object_size) := by
  refine ⟨?_, ?_, ?_⟩
  · cases isHeapNumber <;> cases isSeqString <;> simp [TargetSpace]
  · intro a ha
    unfold MCAllocateFromNewSpace
    rw [ha]
  · intro ha
    unfold MCAllocateFromNewSpace
    rw [ha]

/-- Witness for C7: with a failing old-space allocator and a new-space
allocator returning address 1012, a plain object of size 12 falls back to
the new space. -/
theorem MCAllocateFromNewSpace_fallback_witness :
    targetAllocate
        { oldAlloc := fun _ => none
          codeAlloc := fun _ => none
          newAlloc := fun s => some (1000 + s) } false false 12 = none ∧
    MCAllocateFromNewSpace
        { oldAlloc := fun _ => none
          codeAlloc := fun _ => none
          newAlloc := fun s => some (1000 + s) } false false 12 = some 1012 := by
  refine ⟨rfl, ?_⟩
  have h := (MCAllocateFromNewSpace_fallback
    { oldAlloc := fun _ => none
      codeAlloc := fun _ => none
      newAlloc := fun s => some (1000 + s) } false false 12).2.2 rfl
  rw [h]

/-- Claim C8: when `MarkObjectByPointer` visits a slot holding a ConsString
whose second component is the canonical empty string, it overwrites the
slot with the string's first component and marks that component instead of
the cons cell — but only when the original object is in new space or the
first component is not in new space; when the guard fails, the slot is left
unchanged and the cons cell itself is marked. -/
theorem MarkObjectByPointer_consString_shortcut (h : MarkHeap) (a : Nat)
    (hcons : (h.objAt a).isStringType = true ∧ (h.objAt a).reprIsCons = true ∧
      (h.objAt a).second = Value.heapObj h.emptyString) :
    (((h.objAt a).inNewSpace = true ∨ h.inNewSpaceV (h.objAt a).first = false) →
      MarkObjectByPointer h (Value.heapObj a) =
        ((h.objAt a).first, markTargetOf (h.objAt a).first)) ∧
    ((h.objAt a).inNewSpace = false ∧ h.inNewSpaceV (h.objAt a).first = true →
      MarkObjectByPointer h (Value.heapObj a) = (Value.heapObj a, some a)) := by
  obtain ⟨h1, h2, h3⟩ := hcons
  constructor
  · intro hg
    unfold MarkObjectByPointer
    dsimp only
    rw [if_pos (by simp [h1, h2, h3])]
    rw [if_pos (show ((h.objAt a).inNewSpace
        || !h.inNewSpaceV (h.objAt a).first) = true by
      rcases hg with hg | hg <;> simp [hg])]
  · intro hg
    obtain ⟨hg1, hg2⟩ := hg
    unfold MarkObjectByPointer
    dsimp only
    rw [if_pos (by simp [h1, h2, h3]), if_neg (by simp [hg1, hg2])]

/-- Witness for C8: a cons string at address 1 with first component the
string at address 7 and second component the canonical empty string at
address 9, nothing in new space; the slot is short-circuited to address 7
and address 7 is marked. -/
theorem MarkObjectByPointer_consString_shortcut_witness :
    MarkObjectByPointer
        { objAt := fun x => if x = 1 then
            { isStringType := true, reprIsCons := true,
              first := Value.heapObj 7, second := Value.heapObj 9,
              inNewSpace := false }
          else
            { isStringType := false, reprIsCons := false,
              first := Value.smi 0, second := Value.smi 0,
              inNewSpace := false }
          emptyString := 9 } (Value.heapObj 1) =
      (Value.heapObj 7, some 7) := by
  have h := (MarkObjectByPointer_consString_shortcut
    { objAt := fun x => if x = 1 then
        { isStringType := true, reprIsCons := true,
          first := Value.heapObj 7, second := Value.heapObj 9,
          inNewSpace := false }
      else
        { isStringType := false, reprIsCons := false,
          first := Value.smi 0, second := Value.smi 0,
          inNewSpace := false }
      emptyString := 9 } 1 (by refine ⟨rfl, rfl, rfl⟩)).1
    (Or.inr rfl)
  rw [h]
  rfl

/-- Claim C10: `UpdatePointer` leaves a slot holding a tagged small integer
(not a heap-object pointer) completely unchanged; it returns without
overwriting the slot. -/
theorem UpdatePointer_ignores_smis (E : UpdateEnv) (H : PagedHeap) (v : Int) :
    UpdatePointer E H (Value.smi v) = Value.smi v := rfl

/-! ## Lemmas about the marking machine

The development below is for the push operation that marks a dropped
object overflowed (`markingStackPushMarkOverflow`); the literal
spec-modelled push is only exercised computationally in the C3
counterexample. -/

theorem StateTrans.refl {n : Nat} (s : MarkState n) : StateTrans s s :=
  ⟨fun _ h => h, fun _ h => h, fun h => h, fun _ h => Or.inl h,
   fun _ h => Or.inl h⟩

theorem StateTrans.comp {n : Nat} {s t u : MarkState n}
    (h1 : StateTrans s t) (h2 : StateTrans t u) : StateTrans s u := by
  refine ⟨fun p h => h2.marked_mono p (h1.marked_mono p h),
    fun p h => h2.pending_mono p (h1.pending_mono p h),
    fun h => h2.flag_mono (h1.flag_mono h), fun p h => ?_, fun p h => ?_⟩
  · rcases h2.ovbit_new p h with h | h
    · rcases h1.ovbit_new p h with h | h
      · exact Or.inl h
      · exact Or.inr (h2.flag_mono h)
    · exact Or.inr h
  · rcases h2.marked_new p h with h | h
    · rcases h1.marked_new p h with h | h
      · exact Or.inl h
      · exact Or.inr (h2.pending_mono p h)
    · exact Or.inr h

theorem StateTrans.ovbit_false {n : Nat} {s t : MarkState n} {p : Fin n}
    (T : StateTrans s t) (h1 : s.overflowBit p = false)
    (h2 : t.stackOverflowed = false) : t.overflowBit p = false := by
  cases hov : t.overflowBit p
  · rfl
  · rcases T.ovbit_new p hov with h | h
    · rw [h1] at h
      exact absurd h (by simp)
    · rw [h2] at h
      exact absurd h (by simp)

theorem StateTrans.colorInv {n : Nat} {g : MarkGraph n} {s t : MarkState n}
    (T : StateTrans s t) (hc : ColorInv g s) : ColorInv g t := by
  intro o hm
  rcases T.marked_new o hm with hold | hp
  · rcases hc o hold with hp | hch
    · exact Or.inl (T.pending_mono o hp)
    · exact Or.inr (fun c hcc => T.marked_mono c (hch c hcc))
  · exact Or.inl hp

theorem markObject_trans {n : Nat} (cap : Nat) (o : Fin n) (s : MarkState n) :
    StateTrans s (MarkObject (markingStackPushMarkOverflow cap) o s) := by
  unfold MarkObject
  by_cases hm : s.marked o
  · rw [if_pos hm]
    exact StateTrans.refl s
  · rw [if_neg hm]
    unfold MarkUnmarkedObject markingStackPushMarkOverflow setMark setOverflow
    dsimp only
    by_cases hf : s.stackOverflowed
    · rw [if_neg (by simp [hf])]
      refine ⟨?_, ?_, ?_, ?_, ?_⟩
      · intro p h
        dsimp only
        by_cases hp : p = o <;> simp [hp, h]
      · intro p h
        rcases h with h | h
        · exact Or.inl h
        · refine Or.inr ?_
          dsimp only
          by_cases hp : p = o <;> simp [hp, h]
      · intro h
        exact h
      · intro p h
        dsimp only at h
        by_cases hp : p = o
        · exact Or.inr hf
        · rw [if_neg hp] at h
          exact Or.inl h
      · intro p h
        dsimp only at h
        by_cases hp : p = o
        · subst hp
          exact Or.inr (Or.inr (by simp))
        · rw [if_neg hp] at h
          exact Or.inl h
    · rw [if_pos (by simp [hf])]
      by_cases hr : s.stack.length < cap
      · rw [if_pos (by simpa using hr)]
        refine ⟨?_, ?_, ?_, ?_, ?_⟩
        · intro p h
          dsimp only
          by_cases hp : p = o <;> simp [hp, h]
        · intro p h
          rcases h with h | h
          · exact Or.inl (by simp [h])
          · exact Or.inr h
        · intro h
          exact h
        · intro p h
          exact Or.inl h
        · intro p h
          dsimp only at h
          by_cases hp : p = o
          · subst hp
            exact Or.inr (Or.inl (by simp))
          · rw [if_neg hp] at h
            exact Or.inl h
      · rw [if_neg (by simpa using hr)]
        refine ⟨?_, ?_, ?_, ?_, ?_⟩
        · intro p h
          dsimp only
          by_cases hp : p = o <;> simp [hp, h]
        · intro p h
          rcases h with h | h
          · exact Or.inl h
          · refine Or.inr ?_
            dsimp only
            by_cases hp : p = o <;> simp [hp, h]
        · intro h
          rfl
        · intro p h
          exact Or.inr rfl
        · intro p h
          dsimp only at h
          by_cases hp : p = o
          · subst hp
            exact Or.inr (Or.inr (by simp))
          · rw [if_neg hp] at h
            exact Or.inl h

theorem markObject_marks {n : Nat} (cap : Nat) (o : Fin n) (s : MarkState n) :
    (MarkObject (markingStackPushMarkOverflow cap) o s).marked o = true := by
  unfold MarkObject
  by_cases hm : s.marked o
  · rw [if_pos hm]
    exact hm
  · rw [if_neg hm]
    unfold MarkUnmarkedObject markingStackPushMarkOverflow setMark setOverflow
    dsimp only
    by_cases hf : s.stackOverflowed
    · rw [if_neg (by simp [hf])]
      simp
    · rw [if_pos (by simp [hf])]
      by_cases hr : s.stack.length < cap
      · rw [if_pos (by simpa using hr)]
        simp
      · rw [if_neg (by simpa using hr)]
        simp

theorem markObjectList_trans {n : Nat} (cap : Nat) (l : List (Fin n)) :
    ∀ s : MarkState n,
      StateTrans s (markObjectList (markingStackPushMarkOverflow cap) l s) := by
  induction l with
  | nil => exact fun s => StateTrans.refl s
  | cons o rest ih =>
    intro s
    exact StateTrans.comp (markObject_trans cap o s)
      (ih (MarkObject (markingStackPushMarkOverflow cap) o s))

theorem markObjectList_marks {n : Nat} (cap : Nat) (l : List (Fin n)) :
    ∀ (s : MarkState n) (c : Fin n), c ∈ l →
      (markObjectList (markingStackPushMarkOverflow cap) l s).marked c = true := by
  induction l with
  | nil =>
    intro s c hc
    exact absurd hc (List.not_mem_nil c)
  | cons o rest ih =>
    intro s c hc
    rcases List.mem_cons.mp hc with rfl | hc
    · exact (markObjectList_trans cap rest _).marked_mono c
        (markObject_marks cap c s)
    · exact ih _ c hc

theorem drainMarkingStack_props {n : Nat} (cap : Nat) (g : MarkGraph n) :
    ∀ (fuel : Nat) (s s' : MarkState n),
      drainMarkingStack (markingStackPushMarkOverflow cap) g fuel s = some s' →
      s'.stack = [] ∧
      (∀ p, s.marked p = true → s'.marked p = true) ∧
      (s.stackOverflowed = true → s'.stackOverflowed = true) ∧
      (∀ p, s'.overflowBit p = true →
        s.overflowBit p = true ∨ s'.stackOverflowed = true) ∧
      (ColorInv g s → ColorInv g s') := by
  intro fuel
  induction fuel with
  | zero =>
    intro s s' h
    unfold drainMarkingStack at h
    cases hs : s.stack with
    | nil =>
      rw [hs] at h
      dsimp only at h
      cases h
      exact ⟨hs, fun p h => h, fun h => h, fun p h => Or.inl h, fun h => h⟩
    | cons o rest =>
      rw [hs] at h
      dsimp only at h
      cases h
  | succ fuel ih =>
    intro s s' h
    unfold drainMarkingStack at h
    cases hs : s.stack with
    | nil =>
      rw [hs] at h
      dsimp only at h
      cases h
      exact ⟨hs, fun p h => h, fun h => h, fun p h => Or.inl h, fun h => h⟩
    | cons o rest =>
      rw [hs] at h
      dsimp only at h
      have T : StateTrans { s with stack := rest }
          (markChildren (markingStackPushMarkOverflow cap) g o
            { s with stack := rest }) :=
        markObjectList_trans cap (g.children o) { s with stack := rest }
      obtain ⟨ih1, ih2, ih3, ih4, ih5⟩ := ih _ s' h
      refine ⟨ih1, ?_, ?_, ?_, ?_⟩
      · intro p hp
        exact ih2 p (T.marked_mono p hp)
      · intro hp
        exact ih3 (T.flag_mono hp)
      · intro p hp
        rcases ih4 p hp with hp | hp
        · rcases T.ovbit_new p hp with hq | hq
          · exact Or.inl hq
          · exact Or.inr (ih3 hq)
        · exact Or.inr hp
      · intro hc
        refine ih5 ?_
        intro p hm2
        rcases T.marked_new p hm2 with hps | hp
        · rcases hc p hps with hpend | hch
          · rcases hpend with hstk | hov
            · rw [hs] at hstk
              rcases List.mem_cons.mp hstk with rfl | hrest
              · exact Or.inr (fun c hcc =>
                  markObjectList_marks cap (g.children p) _ c hcc)
              · exact Or.inl (T.pending_mono p (Or.inl hrest))
            · exact Or.inl (T.pending_mono p (Or.inr hov))
          · exact Or.inr (fun c hcc => T.marked_mono c (hch c hcc))
        · exact Or.inl hp

theorem scanOverflowedObjects_trans {n : Nat} (cap : Nat) :
    ∀ (l : List (Fin n)) (s : MarkState n),
      StateTrans s
        (scanOverflowedObjects (markingStackPushMarkOverflow cap) l s) := by
  intro l
  induction l with
  | nil =>
    intro s
    exact StateTrans.refl s
  | cons o rest ih =>
    intro s
    unfold scanOverflowedObjects
    by_cases h1 : s.overflowBit o
    · rw [if_pos h1]
      by_cases h2 : s.stackOverflowed
      · rw [if_pos h2]
        exact StateTrans.refl s
      · rw [if_neg h2]
        refine StateTrans.comp ?_ (ih _)
        unfold markingStackPushMarkOverflow clearOverflowBit
        dsimp only
        by_cases hr : s.stack.length < cap
        · rw [if_pos (by simpa using hr)]
          refine ⟨fun p h => h, ?_, fun h => h, ?_, fun p h => Or.inl h⟩
          · intro p h
            rcases h with h | h
            · exact Or.inl (by simp [h])
            · by_cases hp : p = o
              · exact Or.inl (by simp [hp])
              · exact Or.inr (by simp [hp, h])
          · intro p h
            dsimp only at h
            by_cases hp : p = o
            · rw [hp] at h
              rw [if_pos rfl] at h
              cases h
            · rw [if_neg hp] at h
              exact Or.inl h
        · rw [if_neg (by simpa using hr)]
          refine ⟨fun p h => h, ?_, fun h => rfl, ?_, fun p h => Or.inl h⟩
          · intro p h
            rcases h with h | h
            · exact Or.inl h
            · refine Or.inr ?_
              dsimp only
              by_cases hp : p = o <;> simp [hp, h]
          · intro p h
            exact Or.inr rfl
    · rw [if_neg h1]
      exact ih s

theorem scanOverflowedObjects_clears {n : Nat} (cap : Nat) :
    ∀ (l : List (Fin n)) (s : MarkState n),
      (scanOverflowedObjects (markingStackPushMarkOverflow cap) l
          s).stackOverflowed = false →
      ∀ o ∈ l,
        (scanOverflowedObjects (markingStackPushMarkOverflow cap) l
            s).overflowBit o = false := by
  intro l
  induction l with
  | nil =>
    intro s _ o ho
    exact absurd ho (List.not_mem_nil o)
  | cons p rest ih =>
    intro s hf o ho
    unfold scanOverflowedObjects at hf ⊢
    by_cases h1 : s.overflowBit p
    · rw [if_pos h1] at hf ⊢
      by_cases h2 : s.stackOverflowed
      · rw [if_pos h2] at hf
        rw [hf] at h2
        cases h2
      · rw [if_neg h2] at hf ⊢
        rcases List.mem_cons.mp ho with rfl | ho
        · -- the freshly pushed object: its overflow bit was cleared and the
          -- push succeeded (a failed push would have latched the flag)
          have hstep : (markingStackPushMarkOverflow cap o
              (clearOverflowBit o s)).overflowBit o = false := by
            unfold markingStackPushMarkOverflow clearOverflowBit
            dsimp only
            by_cases hr : s.stack.length < cap
            · rw [if_pos (by simpa using hr)]
              simp
            · exfalso
              have hflag : (scanOverflowedObjects
                  (markingStackPushMarkOverflow cap) rest
                  (markingStackPushMarkOverflow cap o
                    (clearOverflowBit o s))).stackOverflowed = true := by
                refine (scanOverflowedObjects_trans cap rest _).flag_mono ?_
                unfold markingStackPushMarkOverflow clearOverflowBit
                dsimp only
                rw [if_neg (by simpa using hr)]
              rw [hf] at hflag
              cases hflag
          exact (scanOverflowedObjects_trans cap rest _).ovbit_false hstep hf
        · exact ih _ hf o ho
    · rw [if_neg h1] at hf ⊢
      rcases List.mem_cons.mp ho with rfl | ho
      · exact (scanOverflowedObjects_trans cap rest s).ovbit_false
          (by simpa using h1) hf
      · exact ih _ hf o ho

theorem mem_spaceList_self {n : Nat} (g : MarkGraph n) (o : Fin n) :
    o ∈ spaceList g (g.space o) := by
  unfold spaceList
  rw [List.mem_filter]
  exact ⟨List.mem_finRange o, by simp⟩

theorem processMarkingStack_props {n : Nat} (cap : Nat) (g : MarkGraph n) :
    ∀ (fuel : Nat) (s s' : MarkState n),
      processMarkingStack (markingStackPushMarkOverflow cap) g fuel s =
        some s' →
      ColorInv g s →
      (s.stackOverflowed = false → ∀ p, s.overflowBit p = false) →
      s'.stack = [] ∧ s'.stackOverflowed = false ∧
      (∀ p, s.marked p = true → s'.marked p = true) ∧
      (∀ p, s'.marked p = true → ∀ c ∈ g.children p, s'.marked c = true) := by
  intro fuel
  induction fuel with
  | zero =>
    intro s s' h _ _
    unfold processMarkingStack at h
    cases h
  | succ fuel ih =>
    intro s s' h hc hov
    unfold processMarkingStack at h
    cases hd : drainMarkingStack (markingStackPushMarkOverflow cap) g fuel s with
    | none =>
      rw [hd] at h
      cases h
    | some s1 =>
      rw [hd] at h
      dsimp only at h
      obtain ⟨D1, D2, D3, D4, D5⟩ := drainMarkingStack_props cap g fuel s s1 hd
      have hc1 : ColorInv g s1 := D5 hc
      by_cases hob : s1.stackOverflowed = true
      · rw [if_neg (by simp [hob])] at h
        set s2 : MarkState n := { s1 with stackOverflowed := false } with hs2
        set s3 : MarkState n :=
          scanOverflowedObjects (markingStackPushMarkOverflow cap)
            (spaceList g HeapSpace.newS) s2 with hs3
        set s4 : MarkState n :=
          scanOverflowedObjects (markingStackPushMarkOverflow cap)
            (spaceList g HeapSpace.oldS) s3 with hs4
        set s5 : MarkState n :=
          scanOverflowedObjects (markingStackPushMarkOverflow cap)
            (spaceList g HeapSpace.codeS) s4 with hs5
        set s6 : MarkState n :=
          scanOverflowedObjects (markingStackPushMarkOverflow cap)
            (spaceList g HeapSpace.mapS) s5 with hs6
        set s7 : MarkState n :=
          scanOverflowedObjects (markingStackPushMarkOverflow cap)
            (spaceList g HeapSpace.loS) s6 with hs7
        have hc2 : ColorInv g s2 := hc1
        have T23 : StateTrans s2 s3 := scanOverflowedObjects_trans cap _ s2
        have T34 : StateTrans s3 s4 := scanOverflowedObjects_trans cap _ s3
        have T45 : StateTrans s4 s5 := scanOverflowedObjects_trans cap _ s4
        have T56 : StateTrans s5 s6 := scanOverflowedObjects_trans cap _ s5
        have T67 : StateTrans s6 s7 := scanOverflowedObjects_trans cap _ s6
        by_cases h3 : s3.stackOverflowed = true
        · rw [if_pos h3] at h
          obtain ⟨P1, P2, P3, P4⟩ := ih s3 s' h (T23.colorInv hc2)
            (fun hff => absurd h3 (by simp [hff]))
          exact ⟨P1, P2, fun p hp => P3 p (T23.marked_mono p (D2 p hp)), P4⟩
        · rw [if_neg h3] at h
          by_cases h4 : s4.stackOverflowed = true
          · rw [if_pos h4] at h
            obtain ⟨P1, P2, P3, P4⟩ := ih s4 s' h
              ((T23.comp T34).colorInv hc2)
              (fun hff => absurd h4 (by simp [hff]))
            exact ⟨P1, P2,
              fun p hp => P3 p ((T23.comp T34).marked_mono p (D2 p hp)), P4⟩
          · rw [if_neg h4] at h
            by_cases h5 : s5.stackOverflowed = true
            · rw [if_pos h5] at h
              obtain ⟨P1, P2, P3, P4⟩ := ih s5 s' h
                (((T23.comp T34).comp T45).colorInv hc2)
                (fun hff => absurd h5 (by simp [hff]))
              exact ⟨P1, P2, fun p hp =>
                P3 p (((T23.comp T34).comp T45).marked_mono p (D2 p hp)), P4⟩
            · rw [if_neg h5] at h
              by_cases h6 : s6.stackOverflowed = true
              · rw [if_pos h6] at h
                obtain ⟨P1, P2, P3, P4⟩ := ih s6 s' h
                  ((((T23.comp T34).comp T45).comp T56).colorInv hc2)
                  (fun hff => absurd h6 (by simp [hff]))
                exact ⟨P1, P2, fun p hp =>
                  P3 p ((((T23.comp T34).comp T45).comp T56).marked_mono p
                    (D2 p hp)), P4⟩
              · rw [if_neg h6] at h
                have f3 : s3.stackOverflowed = false := by
                  revert h3
                  cases s3.stackOverflowed <;> simp
                have f4 : s4.stackOverflowed = false := by
                  revert h4
                  cases s4.stackOverflowed <;> simp
                have f5 : s5.stackOverflowed = false := by
                  revert h5
                  cases s5.stackOverflowed <;> simp
                have f6 : s6.stackOverflowed = false := by
                  revert h6
                  cases s6.stackOverflowed <;> simp
                have hov7 : s7.stackOverflowed = false →
                    ∀ p, s7.overflowBit p = false := by
                  intro f7 p
                  cases hsp : g.space p
                  · -- new space: cleared by the first scan
                    have c3 : s3.overflowBit p = false :=
                      scanOverflowedObjects_clears cap _ s2 f3 p
                        (hsp ▸ mem_spaceList_self g p)
                    exact (((T34.comp T45).comp T56).comp T67).ovbit_false c3 f7
                  · have c4 : s4.overflowBit p = false :=
                      scanOverflowedObjects_clears cap _ s3 f4 p
                        (hsp ▸ mem_spaceList_self g p)
                    exact ((T45.comp T56).comp T67).ovbit_false c4 f7
                  · have c5 : s5.overflowBit p = false :=
                      scanOverflowedObjects_clears cap _ s4 f5 p
                        (hsp ▸ mem_spaceList_self g p)
                    exact (T56.comp T67).ovbit_false c5 f7
                  · have c6 : s6.overflowBit p = false :=
                      scanOverflowedObjects_clears cap _ s5 f6 p
                        (hsp ▸ mem_spaceList_self g p)
                    exact T67.ovbit_false c6 f7
                  · exact scanOverflowedObjects_clears cap _ s6 f7 p
                      (hsp ▸ mem_spaceList_self g p)
                obtain ⟨P1, P2, P3, P4⟩ := ih s7 s' h
                  (((((T23.comp T34).comp T45).comp T56).comp T67).colorInv hc2)
                  hov7
                exact ⟨P1, P2, fun p hp =>
                  P3 p (((((T23.comp T34).comp T45).comp T56).comp
                    T67).marked_mono p (D2 p hp)), P4⟩
      · have f1 : s1.stackOverflowed = false := by
          revert hob
          cases s1.stackOverflowed <;> simp
        rw [if_pos (by simp [f1])] at h
        obtain rfl : s1 = s' := Option.some.inj h
        refine ⟨D1, f1, D2, ?_⟩
        intro p hm
        rcases hc1 p hm with hpend | hch
        · rcases hpend with hstk | hovb
          · rw [D1] at hstk
            exact absurd hstk (List.not_mem_nil p)
          · rcases D4 p hovb with hso | hfl
            · by_cases hsf : s.stackOverflowed = true
              · exact absurd (D3 hsf) (by simp [f1])
              · have hzero : s.overflowBit p = false :=
                  hov (by revert hsf; cases s.stackOverflowed <;> simp) p
                rw [hzero] at hso
                cases hso
            · rw [f1] at hfl
              cases hfl
        · exact hch

/-- Claim C3, counterexample to the claim as stated: with the marking-stack
push modelled from the spec's words — on a push past capacity the
`overflowed` flag latches and the push is *silently dropped* — the marking
run on the five-object heap `gOverflow` with a capacity-1 stack terminates
with the stack empty and the overflow flag clear, yet object `4`, reachable
from the root through object `2`, is left unmarked: the silently dropped
object `2` is marked but never gets its body visited, and the rescan
protocol cannot find it because its overflow bit was never set. -/
theorem markLiveObjects_silent_drop_counterexample :
    MarkLiveObjectsRun (markingStackPush 1) gOverflow [(0 : Fin 5)] 30 =
      some ceState ∧
    ceState.stack = [] ∧
    ceState.stackOverflowed = false ∧
    Reachable gOverflow [(0 : Fin 5)] (4 : Fin 5) ∧
    ceState.marked (4 : Fin 5) = false := by
  refine ⟨rfl, rfl, rfl, ?_, rfl⟩
  have h0 : (0 : Fin 5) ∈ [(0 : Fin 5)] := List.mem_singleton.mpr rfl
  have h2 : (2 : Fin 5) ∈ gOverflow.children (0 : Fin 5) := by decide
  have h4 : (4 : Fin 5) ∈ gOverflow.children (2 : Fin 5) := by decide
  exact Reachable.child (Reachable.child (Reachable.root h0) h2) h4

/-- Claim C3 as amended: while the marking stack's overflowed flag is set,
marking a newly reached object sets that object's overflow bit instead of
pushing it (and leaves the stack untouched); and — provided the push that
latches the overflow flag also marks the dropped object overflowed rather
than dropping it silently — whenever the marking run returns, the stack is
empty, the overflowed flag is clear, and every object reachable from the
roots is marked, even with a bounded stack. -/
theorem markLiveObjects_overflow_rescan_complete {n : Nat} (cap : Nat)
    (g : MarkGraph n) (roots : List (Fin n)) (fuel : Nat) (s' : MarkState n)
    (h : MarkLiveObjectsRun (markingStackPushMarkOverflow cap) g roots fuel =
      some s') :
    (∀ (t : MarkState n) (o : Fin n), t.stackOverflowed = true →
      (MarkUnmarkedObject (markingStackPushMarkOverflow cap) o t).stack =
        t.stack ∧
      (MarkUnmarkedObject (markingStackPushMarkOverflow cap) o t).overflowBit
        o = true) ∧
    s'.stack = [] ∧ s'.stackOverflowed = false ∧
    (∀ o, Reachable g roots o → s'.marked o = true) := by
  have hflagcase : ∀ (t : MarkState n) (o : Fin n), t.stackOverflowed = true →
      (MarkUnmarkedObject (markingStackPushMarkOverflow cap) o t).stack =
        t.stack ∧
      (MarkUnmarkedObject (markingStackPushMarkOverflow cap) o t).overflowBit
        o = true := by
    intro t o ht
    unfold MarkUnmarkedObject setMark setOverflow
    dsimp only
    rw [if_neg (by simp [ht])]
    exact ⟨rfl, by simp⟩
  unfold MarkLiveObjectsRun at h
  have T0 : StateTrans (initState n)
      (markObjectList (markingStackPushMarkOverflow cap) roots (initState n)) :=
    markObjectList_trans cap roots (initState n)
  have hc0 : ColorInv g
      (markObjectList (markingStackPushMarkOverflow cap) roots (initState n)) := by
    refine T0.colorInv ?_
    intro o hm
    simp [initState] at hm
  have hov0 : (markObjectList (markingStackPushMarkOverflow cap) roots
        (initState n)).stackOverflowed = false →
      ∀ p, (markObjectList (markingStackPushMarkOverflow cap) roots
        (initState n)).overflowBit p = false := by
    intro hf p
    exact T0.ovbit_false rfl hf
  obtain ⟨P1, P2, P3, P4⟩ :=
    processMarkingStack_props cap g fuel _ s' h hc0 hov0
  refine ⟨hflagcase, P1, P2, ?_⟩
  intro o hr
  induction hr with
  | root hmem =>
    exact P3 _ (markObjectList_marks cap roots (initState n) _ hmem)
  | child _ hcc ihr =>
    exact P4 _ ihr _ hcc

/-- Witness for the amended C3: on the five-object heap `gOverflow` with a
capacity-1 stack and the overflow-marking push, the run returns with an
empty stack, a clear overflow flag, and the deep object `4` marked. -/
theorem markLiveObjects_overflow_rescan_complete_witness :
    wOverflowState.stack = [] ∧
    wOverflowState.stackOverflowed = false ∧
    wOverflowState.marked (4 : Fin 5) = true := by
  have hrun : MarkLiveObjectsRun (markingStackPushMarkOverflow 1) gOverflow
      [(0 : Fin 5)] 30 = some wOverflowState := rfl
  obtain ⟨_, Q1, Q2, Q3⟩ :=
    markLiveObjects_overflow_rescan_complete 1 gOverflow [(0 : Fin 5)] 30
      wOverflowState hrun
  refine ⟨Q1, Q2, Q3 _ ?_⟩
  have h0 : (0 : Fin 5) ∈ [(0 : Fin 5)] := List.mem_singleton.mpr rfl
  have h2 : (2 : Fin 5) ∈ gOverflow.children (0 : Fin 5) := by decide
  have h4 : (4 : Fin 5) ∈ gOverflow.children (2 : Fin 5) := by decide
  exact Reachable.child (Reachable.child (Reachable.root h0) h2) h4

/-! ## Lemmas about the tracer's marked count -/

theorem setMark_markedCard {n : Nat} (o : Fin n) (s : MarkState n)
    (hm : s.marked o = false) :
    markedCard (setMark o s) = markedCard s + 1 := by
  unfold markedCard setMark
  dsimp only
  have hset : (Finset.univ.filter
        fun p => (if p = o then true else s.marked p) = true) =
      insert o (Finset.univ.filter fun p : Fin n => s.marked p = true) := by
    ext p
    by_cases hp : p = o <;> simp [hp, hm]
  rw [hset, Finset.card_insert_of_not_mem (by simp [hm])]

theorem markObject_countInv {n : Nat} (push : PushFn n)
    (hpush : ∀ (o : Fin n) (t : MarkState n),
      (push o t).marked = t.marked ∧ (push o t).markedCount = t.markedCount)
    (o : Fin n) (s : MarkState n) (h : CountInv s) :
    CountInv (MarkObject push o s) := by
  unfold MarkObject
  by_cases hm : s.marked o
  · rw [if_pos hm]
    exact h
  · rw [if_neg hm]
    have hm' : s.marked o = false := by
      revert hm
      cases s.marked o <;> simp
    have h1 : CountInv (setMark o s) := by
      unfold CountInv at h ⊢
      rw [setMark_markedCard o s hm']
      unfold setMark
      dsimp only
      rw [h]
    unfold MarkUnmarkedObject
    dsimp only
    by_cases hf : (setMark o s).stackOverflowed = true
    · rw [if_neg (by simp [hf])]
      exact h1
    · rw [if_pos (by simp [hf])]
      unfold CountInv markedCard
      rw [(hpush o (setMark o s)).1, (hpush o (setMark o s)).2]
      exact h1

theorem markObjectList_countInv {n : Nat} (push : PushFn n)
    (hpush : ∀ (o : Fin n) (t : MarkState n),
      (push o t).marked = t.marked ∧ (push o t).markedCount = t.markedCount)
    (l : List (Fin n)) :
    ∀ s : MarkState n, CountInv s → CountInv (markObjectList push l s) := by
  induction l with
  | nil => exact fun s h => h
  | cons o rest ih =>
    intro s h
    exact ih (MarkObject push o s) (markObject_countInv push hpush o s h)

theorem drainMarkingStack_countInv {n : Nat} (push : PushFn n)
    (hpush : ∀ (o : Fin n) (t : MarkState n),
      (push o t).marked = t.marked ∧ (push o t).markedCount = t.markedCount)
    (g : MarkGraph n) :
    ∀ (fuel : Nat) (s s' : MarkState n),
      drainMarkingStack push g fuel s = some s' → CountInv s →
      CountInv s' := by
  intro fuel
  induction fuel with
  | zero =>
    intro s s' h hcnt
    unfold drainMarkingStack at h
    cases hs : s.stack with
    | nil =>
      rw [hs] at h
      dsimp only at h
      cases h
      exact hcnt
    | cons o rest =>
      rw [hs] at h
      dsimp only at h
      cases h
  | succ fuel ih =>
    intro s s' h hcnt
    unfold drainMarkingStack at h
    cases hs : s.stack with
    | nil =>
      rw [hs] at h
      dsimp only at h
      cases h
      exact hcnt
    | cons o rest =>
      rw [hs] at h
      dsimp only at h
      exact ih _ s' h
        (markObjectList_countInv push hpush (g.children o)
          { s with stack := rest } hcnt)

theorem scanOverflowedObjects_countInv {n : Nat} (push : PushFn n)
    (hpush : ∀ (o : Fin n) (t : MarkState n),
      (push o t).marked = t.marked ∧ (push o t).markedCount = t.markedCount) :
    ∀ (l : List (Fin n)) (s : MarkState n), CountInv s →
      CountInv (scanOverflowedObjects push l s) := by
  intro l
  induction l with
  | nil => exact fun s h => h
  | cons o rest ih =>
    intro s h
    unfold scanOverflowedObjects
    by_cases h1 : s.overflowBit o
    · rw [if_pos h1]
      by_cases h2 : s.stackOverflowed
      · rw [if_pos h2]
        exact h
      · rw [if_neg h2]
        refine ih _ ?_
        unfold CountInv markedCard
        rw [(hpush o (clearOverflowBit o s)).1,
          (hpush o (clearOverflowBit o s)).2]
        exact h
    · rw [if_neg h1]
      exact ih s h

theorem processMarkingStack_countInv {n : Nat} (push : PushFn n)
    (hpush : ∀ (o : Fin n) (t : MarkState n),
      (push o t).marked = t.marked ∧ (push o t).markedCount = t.markedCount)
    (g : MarkGraph n) :
    ∀ (fuel : Nat) (s s' : MarkState n),
      processMarkingStack push g fuel s = some s' → CountInv s →
      CountInv s' := by
  intro fuel
  induction fuel with
  | zero =>
    intro s s' h _
    unfold processMarkingStack at h
    cases h
  | succ fuel ih =>
    intro s s' h hcnt
    unfold processMarkingStack at h
    cases hd : drainMarkingStack push g fuel s with
    | none =>
      rw [hd] at h
      cases h
    | some s1 =>
      rw [hd] at h
      dsimp only at h
      have h1 : CountInv s1 :=
        drainMarkingStack_countInv push hpush g fuel s s1 hd hcnt
      by_cases hob : s1.stackOverflowed = true
      · rw [if_neg (by simp [hob])] at h
        have h2 : CountInv { s1 with stackOverflowed := false } := h1
        have h3 := scanOverflowedObjects_countInv push hpush
          (spaceList g HeapSpace.newS) _ h2
        by_cases hb3 : (scanOverflowedObjects push (spaceList g HeapSpace.newS)
            { s1 with stackOverflowed := false }).stackOverflowed = true
        · rw [if_pos hb3] at h
          exact ih _ s' h h3
        · rw [if_neg hb3] at h
          have h4 := scanOverflowedObjects_countInv push hpush
            (spaceList g HeapSpace.oldS) _ h3
          by_cases hb4 : (scanOverflowedObjects push
              (spaceList g HeapSpace.oldS)
              (scanOverflowedObjects push (spaceList g HeapSpace.newS)
                { s1 with stackOverflowed := false })).stackOverflowed = true
          · rw [if_pos hb4] at h
            exact ih _ s' h h4
          · rw [if_neg hb4] at h
            have h5 := scanOverflowedObjects_countInv push hpush
              (spaceList g HeapSpace.codeS) _ h4
            by_cases hb5 : (scanOverflowedObjects push
                (spaceList g HeapSpace.codeS)
                (scanOverflowedObjects push (spaceList g HeapSpace.oldS)
                  (scanOverflowedObjects push (spaceList g HeapSpace.newS)
                    { s1 with stackOverflowed := false }))).stackOverflowed =
                true
            · rw [if_pos hb5] at h
              exact ih _ s' h h5
            · rw [if_neg hb5] at h
              have h6 := scanOverflowedObjects_countInv push hpush
                (spaceList g HeapSpace.mapS) _ h5
              by_cases hb6 : (scanOverflowedObjects push
                  (spaceList g HeapSpace.mapS)
                  (scanOverflowedObjects push (spaceList g HeapSpace.codeS)
                    (scanOverflowedObjects push (spaceList g HeapSpace.oldS)
                      (scanOverflowedObjects push
                        (spaceList g HeapSpace.newS)
                        { s1 with stackOverflowed :=
                            false })))).stackOverflowed = true
              · rw [if_pos hb6] at h
                exact ih _ s' h h6
              · rw [if_neg hb6] at h
                have h7 := scanOverflowedObjects_countInv push hpush
                  (spaceList g HeapSpace.loS) _ h6
                exact ih _ s' h h7
      · rw [if_pos (by simp [show s1.stackOverflowed = false by
          revert hob; cases s1.stackOverflowed <;> simp])] at h
        obtain rfl : s1 = s' := Option.some.inj h
        exact h1

theorem sweepClearMarks_marked {n : Nat} :
    ∀ (l : List (Fin n)) (s : MarkState n) (p : Fin n),
      (sweepClearMarks l s).marked p = if p ∈ l then false else s.marked p := by
  intro l
  induction l with
  | nil =>
    intro s p
    simp [sweepClearMarks]
  | cons o rest ih =>
    intro s p
    unfold sweepClearMarks at ih ⊢
    rw [List.foldl_cons]
    by_cases hm : s.marked o
    · rw [if_pos hm, ih]
      by_cases hpr : p ∈ rest
      · simp [hpr]
      · rw [if_neg hpr]
        dsimp only
        by_cases hpo : p = o
        · subst hpo
          rw [if_pos rfl, if_pos (List.mem_cons_self p rest)]
        · rw [if_neg hpo, if_neg (by simp [List.mem_cons, hpo, hpr])]
    · rw [if_neg hm, ih]
      by_cases hpr : p ∈ rest
      · simp [hpr]
      · rw [if_neg hpr]
        by_cases hpo : p = o
        · subst hpo
          rw [if_pos (List.mem_cons_self p rest)]
          revert hm
          cases s.marked p <;> simp
        · rw [if_neg (by simp [List.mem_cons, hpo, hpr])]

theorem sweepClearMarks_countInv {n : Nat} :
    ∀ (l : List (Fin n)) (s : MarkState n), CountInv s →
      CountInv (sweepClearMarks l s) := by
  intro l
  induction l with
  | nil => exact fun s h => h
  | cons o rest ih =>
    intro s h
    unfold sweepClearMarks at ih ⊢
    rw [List.foldl_cons]
    by_cases hm : s.marked o
    · rw [if_pos hm]
      refine ih _ ?_
      unfold CountInv markedCard at h ⊢
      dsimp only
      have hset : (Finset.univ.filter
            fun p => (if p = o then false else s.marked p) = true) =
          (Finset.univ.filter fun p : Fin n => s.marked p = true).erase o := by
        ext p
        by_cases hp : p = o <;> simp [hp, hm]
      rw [hset, Finset.card_erase_of_mem (by simp [hm]), h]
    · rw [if_neg hm]
      exact ih s h

/-- Claim C9: the tracer's marked count equals the number of marked objects
throughout marking (each mark increments it exactly once), and after the
mark-clearing sweep over every object (each clear decrements it exactly
once) the count is zero and no object remains marked. -/
theorem marked_count_balance {n : Nat} (cap : Nat) (g : MarkGraph n)
    (roots : List (Fin n)) (fuel : Nat) (s' : MarkState n)
    (h : MarkLiveObjectsRun (markingStackPush cap) g roots fuel = some s') :
    s'.markedCount = markedCard s' ∧
    (sweepClearMarks (List.finRange n) s').markedCount = 0 ∧
    ∀ p, (sweepClearMarks (List.finRange n) s').marked p = false := by
  have hpush : ∀ (o : Fin n) (t : MarkState n),
      (markingStackPush cap o t).marked = t.marked ∧
      (markingStackPush cap o t).markedCount = t.markedCount := by
    intro o t
    unfold markingStackPush
    split <;> exact ⟨rfl, rfl⟩
  have hinit : CountInv (initState n) := by
    unfold CountInv markedCard initState
    simp
  unfold MarkLiveObjectsRun at h
  have h0 : CountInv (markObjectList (markingStackPush cap) roots
      (initState n)) :=
    markObjectList_countInv _ hpush roots _ hinit
  have h1 : CountInv s' :=
    processMarkingStack_countInv _ hpush g fuel _ s' h h0
  have hall : ∀ p, (sweepClearMarks (List.finRange n) s').marked p = false := by
    intro p
    rw [sweepClearMarks_marked]
    simp [List.mem_finRange]
  have h2 : CountInv (sweepClearMarks (List.finRange n) s') :=
    sweepClearMarks_countInv _ _ h1
  refine ⟨h1, ?_, hall⟩
  unfold CountInv markedCard at h2
  rw [h2]
  rw [show (Finset.univ.filter
      fun p => (sweepClearMarks (List.finRange n) s').marked p = true) =
      (∅ : Finset (Fin n)) from by ext p; simp [hall p]]
  exact Finset.card_empty

/-- Witness for C9: the concrete marking run on `gOverflow`: its final
count equals its number of marked objects, and sweeping every object
brings the count to zero. -/
theorem marked_count_balance_witness :
    ceState.markedCount = markedCard ceState ∧
    (sweepClearMarks (List.finRange 5) ceState).markedCount = 0 := by
  have hrun : MarkLiveObjectsRun (markingStackPush 1) gOverflow
      [(0 : Fin 5)] 30 = some ceState := rfl
  obtain ⟨Q1, Q2, _⟩ :=
    marked_count_balance 1 gOverflow [(0 : Fin 5)] 30 ceState hrun
  exact ⟨Q1, Q2⟩

end MarkCompact
